import Mathlib

/-!
Verification of the `frame` GUI bridge (Rust / wry / tao / PyO3).

Shallow embedding of:
* `src/ipc_req.rs` — request normalization (`SerdeRequest::from`) and the
  IPC dispatch closure (`handle_ipc_req`),
* `src/lib.rs` — the tao event-loop body in `create_webframe`, the
  `MESSAGE_CHANNEL` state and `emit_str` / `emit_async`,
* the JSON (de)serialization performed via `serde_json` on the `Message`
  struct, modelled faithfully to serde_json semantics.

Machine-level details (the GIL, OS threads, the tokio runtime) are modelled
by explicit state passing: dispatch results are the list of instructions sent
through the event-loop proxy plus the list of logged errors, and the channel
is an explicit queue.
-/

namespace GuiV1

/-- The `RuntimeMessage` enum of `src/lib.rs` (lines 83–85): the user events
of the tao event loop; currently a single variant `Eval(String)`. -/
inductive RuntimeMessage where
  | Eval (script : String)
deriving DecidableEq, Repr

/-- Model of an `http::HeaderValue`: either representable as text
(`to_str()` returns `Ok`) or not (`to_str()` returns `Err`, e.g. opaque
bytes), in which case `SerdeRequest::from` substitutes `""`. -/
inductive HeaderValue where
  | text (s : String)
  | binary
deriving DecidableEq, Repr

/-- Model of `v.to_str().unwrap_or("")` in `src/ipc_req.rs` line 32. -/
def HeaderValue.toStrOr : HeaderValue → String
  | .text s => s
  | .binary => ""

/-- Model of `wry::http::Request<String>`: method, uri, version, the header
collection as delivered (names in arbitrary case, possibly repeated), and a
string body. -/
structure Request where
  method : String
  uri : String
  version : String
  headers : List (String × HeaderValue)
  body : String
deriving DecidableEq, Repr

/-- The `SerdeRequest<T>` struct of `src/ipc_req.rs` (lines 8–20) at
`T = String`; the `HashMap<String, String>` of headers is modelled as an
association list with unique keys (built by `hashCollect`). -/
structure SerdeRequest where
  method : String
  uri : String
  version : String
  headers : List (String × String)
  body : String
deriving DecidableEq, Repr

/-- `HashMap::insert` semantics on the association-list model: overwrite the
value when the key is already present, otherwise append the new entry. -/
def hashInsert (m : List (String × String)) (k v : String) : List (String × String) :=
  if m.any (fun p => p.1 = k) then
    m.map (fun p => if p.1 = k then (k, v) else p)
  else m ++ [(k, v)]

/-- `collect::<HashMap<_, _>>()` over a pair iterator: repeated insertion,
so a later duplicate key overwrites an earlier one (last wins). -/
def hashCollect (l : List (String × String)) : List (String × String) :=
  l.foldl (fun m p => hashInsert m p.1 p.2) []

/-- `SerdeRequest::from` (`src/ipc_req.rs` lines 22–43): take the request
apart, flatten the header map into a `HashMap<String, String>` using
`v.to_str().unwrap_or("")` for the values, and copy method/uri/version as
strings.  `http::HeaderMap` stores header names case-normalized (lowercase),
so `k.as_str()` yields the lowercased name; this is the `.toLower` below. -/
def SerdeRequest.fromRequest (req : Request) : SerdeRequest :=
  { method := req.method
    uri := req.uri
    version := req.version
    headers := hashCollect (req.headers.map (fun p => (p.1.toLower, p.2.toStrOr)))
    body := req.body }

/-- Hex digit characters as produced by serde_json (lowercase). -/
def toHexDigit (n : Nat) : Char :=
  if n < 10 then Char.ofNat (48 + n) else Char.ofNat (87 + n)

/-- serde_json's escaping of a single character inside a JSON string:
`"` and `\` are backslash-escaped, the five control characters with short
forms use them, remaining control characters become `\u00XX`, and every
other character is emitted unchanged. -/
def escapeChar (c : Char) : List Char :=
  if c = '"' then ['\\', '"']
  else if c = '\\' then ['\\', '\\']
  else if c = Char.ofNat 8 then ['\\', 'b']
  else if c = Char.ofNat 9 then ['\\', 't']
  else if c = Char.ofNat 10 then ['\\', 'n']
  else if c = Char.ofNat 12 then ['\\', 'f']
  else if c = Char.ofNat 13 then ['\\', 'r']
  else if c.toNat < 32 then
    ['\\', 'u', '0', '0', toHexDigit (c.toNat / 16), toHexDigit (c.toNat % 16)]
  else [c]

/-- Escape every character of a string body. -/
def escapeList : List Char → List Char
  | [] => []
  | c :: cs => escapeChar c ++ escapeList cs

/-- A JSON string literal: quote, escaped body, quote. -/
def stringLit (s : String) : List Char :=
  '"' :: (escapeList s.data ++ ['"'])

/-- Rendering of one `"key": "value"` pair at a given indent. -/
def keyColon (k : String) : List Char := stringLit k ++ [':', ' ']

/-- Remaining entries of the pretty-printed header object (after the first),
each preceded by `,\n` and six spaces of indentation. -/
def renderHeadersRest : List (String × String) → List Char
  | [] => '\n' :: (List.replicate 2 ' ' ++ ['}'])
  | (k, v) :: rest =>
      ',' :: '\n' :: (List.replicate 4 ' ' ++ keyColon k ++ stringLit v ++ renderHeadersRest rest)

/-- Pretty-printed header object, as `serde_json::to_string_pretty` renders
a `HashMap<String, String>` nested one level deep. -/
def renderHeaders : List (String × String) → List Char
  | [] => ['{', '}']
  | (k, v) :: rest =>
      '{' :: '\n' :: (List.replicate 4 ' ' ++ keyColon k ++ stringLit v ++ renderHeadersRest rest)

/-- `serde_json::to_string_pretty(&req)` on a `SerdeRequest<String>`
(`src/ipc_req.rs` line 67): the five fields in declaration order with
two-space indentation. -/
def requestJsonChars (r : SerdeRequest) : List Char :=
  '{' :: '\n' :: (List.replicate 2 ' ' ++ keyColon "method" ++ stringLit r.method
    ++ [',', '\n'] ++ List.replicate 2 ' ' ++ keyColon "uri" ++ stringLit r.uri
    ++ [',', '\n'] ++ List.replicate 2 ' ' ++ keyColon "version" ++ stringLit r.version
    ++ [',', '\n'] ++ List.replicate 2 ' ' ++ keyColon "headers" ++ renderHeaders r.headers
    ++ [',', '\n'] ++ List.replicate 2 ' ' ++ keyColon "body" ++ stringLit r.body
    ++ ['\n', '}'])

/-- The serialized form of the normalized request handed to the Python
callback by `handle_ipc_req`. -/
def requestJson (req : Request) : String :=
  String.mk (requestJsonChars (SerdeRequest.fromRequest req))

/-- A Python value as far as dispatch inspects it: a `str`, `None`, or
anything else (carrying its repr); `res.extract::<Option<String>>` succeeds
exactly on the first two. -/
inductive PyValue where
  | str (s : String)
  | pynone
  | otherVal (rep : String)
deriving DecidableEq, Repr

/-- Outcome of calling the Python handler (`handler.call1`): a value, or a
raised exception with its message. -/
inductive PyResult where
  | ok (v : PyValue)
  | err (e : String)
deriving DecidableEq, Repr

/-- `res.extract::<Option<String>>(py)`: `str` extracts to `Some`, `None`
extracts to `None`, anything else fails extraction. -/
def extractOptionString : PyValue → Option (Option String)
  | .str s => some (some s)
  | .pynone => some none
  | .otherVal _ => none

/-- Observable effects of one dispatch call: the instructions sent through
the event-loop proxy (`proxy.send_event`) and the error messages printed to
stderr (`eprintln!`). -/
structure DispatchResult where
  enqueued : List RuntimeMessage
  errorLog : List String
deriving DecidableEq, Repr

/-- The dispatch closure built by `handle_ipc_req` (`src/ipc_req.rs` lines
63–85): normalize and serialize the request, call the Python handler with the
JSON text; on `Ok(res)`, if `res.extract::<Option<String>>` yields
`Ok(Some(script))` send one `Eval(script)` user event, otherwise do nothing;
on `Err(error)` print the error and do nothing.  The function is total: no
error escapes the closure. -/
def handle_ipc_req (handler : String → PyResult) (req : Request) : DispatchResult :=
  let json := requestJson req
  match handler json with
  | .ok res =>
      match extractOptionString res with
      | some (some script) => { enqueued := [RuntimeMessage.Eval script], errorLog := [] }
      | _ => { enqueued := [], errorLog := [] }
  | .err error => { enqueued := [], errorLog := [error] }

/-- Events consumed by the tao event-loop body in `create_webframe`
(`src/lib.rs` lines 135–163): `WindowEvent::CloseRequested`, a
`UserEvent(RuntimeMessage)`, or any other event (the wildcard arms). -/
inductive LoopEvent where
  | closeRequested
  | userEvent (m : RuntimeMessage)
  | otherEvent
deriving DecidableEq, Repr

/-- `tao::event_loop::ControlFlow` as used by the loop body: `Wait` or
`Exit`. -/
inductive ControlFlow where
  | wait
  | exitFlow
deriving DecidableEq, Repr

/-- State of the native event loop: dispatching (`Running`) or terminated
(`Exiting`, entered when the body sets `ControlFlow::Exit`). -/
inductive LoopState where
  | Running
  | Exiting
deriving DecidableEq, Repr

/-- Effects of one invocation of the loop body closure: the control flow it
leaves set and the scripts it applies to the webview
(`_webview.evaluate_script`). -/
structure StepOut where
  flow : ControlFlow
  evals : List String
deriving DecidableEq, Repr

/-- One invocation of the closure passed to `event_loop.run` (`src/lib.rs`
lines 135–163): it first sets `*flow = ControlFlow::Wait`; `CloseRequested`
then sets `ControlFlow::Exit`; `UserEvent(Eval(script))` evaluates the script
against the webview; every other event falls into a `_ => {}` arm. -/
def eventHandler : LoopEvent → StepOut
  | .closeRequested => { flow := .exitFlow, evals := [] }
  | .userEvent (.Eval script) => { flow := .wait, evals := [script] }
  | .otherEvent => { flow := .wait, evals := [] }

/-- The tao run loop over a finite event trace: while `Running` it feeds each
event to the body; when the body leaves `ControlFlow::Exit` the loop enters
the terminal `Exiting` state and dispatches nothing further.  Returns the
final state and the concatenated list of scripts applied to the webview. -/
def runLoop : LoopState → List LoopEvent → LoopState × List String
  | .Exiting, _ => (.Exiting, [])
  | .Running, [] => (.Running, [])
  | .Running, e :: es =>
      match (eventHandler e).flow with
      | .exitFlow => (.Exiting, (eventHandler e).evals)
      | .wait =>
          let rest := runLoop .Running es
          (rest.1, (eventHandler e).evals ++ rest.2)

/-- Scripts carried by the `UserEvent(Eval _)` events of a trace, in order. -/
def evalsOf (events : List LoopEvent) : List String :=
  events.filterMap (fun e =>
    match e with
    | .userEvent (.Eval s) => some s
    | _ => none)

/-- JSON values, as parsed by serde_json.  Numeric literals keep their
lexeme (the `Message` struct has no numeric field, so their value is never
interpreted). -/
inductive Json where
  | null
  | bool (b : Bool)
  | num (lexeme : String)
  | str (s : String)
  | arr (elems : List Json)
  | obj (fields : List (String × Json))

/-- JSON insignificant whitespace (space, tab, newline, carriage return). -/
def isJsonWs (c : Char) : Bool :=
  c = ' ' ∨ c = Char.ofNat 9 ∨ c = Char.ofNat 10 ∨ c = Char.ofNat 13

/-- Drop leading JSON whitespace. -/
def skipWs : List Char → List Char
  | [] => []
  | c :: cs => if isJsonWs c then skipWs cs else c :: cs

/-- Value of one hexadecimal digit character. -/
def hexVal (c : Char) : Option Nat :=
  if 48 ≤ c.toNat ∧ c.toNat ≤ 57 then some (c.toNat - 48)
  else if 97 ≤ c.toNat ∧ c.toNat ≤ 102 then some (c.toNat - 87)
  else if 65 ≤ c.toNat ∧ c.toNat ≤ 70 then some (c.toNat - 55)
  else none

/-- Value of a four-digit hexadecimal escape. -/
def hex4 (a b c d : Char) : Option Nat := do
  let x ← hexVal a
  let y ← hexVal b
  let z ← hexVal c
  let w ← hexVal d
  pure (((x * 16 + y) * 16 + z) * 16 + w)

/-- Decode one escape sequence (the part after the backslash), returning the
decoded character and the remaining input.  `\uXXXX` escapes denoting a high
surrogate must be followed by a low-surrogate escape (serde_json rejects
lone surrogates). -/
def readEscape : List Char → Option (Char × List Char)
  | [] => none
  | e :: r =>
      if e = '"' then some ('"', r)
      else if e = '\\' then some ('\\', r)
      else if e = '/' then some ('/', r)
      else if e = 'b' then some (Char.ofNat 8, r)
      else if e = 'f' then some (Char.ofNat 12, r)
      else if e = 'n' then some (Char.ofNat 10, r)
      else if e = 'r' then some (Char.ofNat 13, r)
      else if e = 't' then some (Char.ofNat 9, r)
      else if e = 'u' then
        match r with
        | h1 :: h2 :: h3 :: h4 :: r2 =>
            match hex4 h1 h2 h3 h4 with
            | none => none
            | some n =>
                if n < 0xD800 ∨ 0xE000 ≤ n then some (Char.ofNat n, r2)
                else if n < 0xDC00 then
                  match r2 with
                  | b1 :: u1 :: g1 :: g2 :: g3 :: g4 :: r3 =>
                      if b1 = '\\' ∧ u1 = 'u' then
                        match hex4 g1 g2 g3 g4 with
                        | none => none
                        | some m =>
                            if 0xDC00 ≤ m ∧ m < 0xE000 then
                              some (Char.ofNat (0x10000 + (n - 0xD800) * 0x400 + (m - 0xDC00)), r3)
                            else none
                      else none
                  | _ => none
                else none
        | _ => none
      else none

/-- Parse the body of a JSON string literal (after the opening quote) up to
and including the closing quote; unescaped control characters are invalid.
The fuel argument bounds recursion; one unit is spent per decoded character,
so any fuel exceeding the decoded length suffices. -/
def parseStringBody : Nat → List Char → Option (List Char × List Char)
  | 0, _ => none
  | _ + 1, [] => none
  | fuel + 1, c :: rest =>
      if c = '"' then some ([], rest)
      else if c = '\\' then
        match readEscape rest with
        | some (d, rest2) =>
            match parseStringBody fuel rest2 with
            | some (s, r) => some (d :: s, r)
            | none => none
        | none => none
      else if c.toNat < 32 then none
      else
        match parseStringBody fuel rest with
        | some (s, r) => some (c :: s, r)
        | none => none

/-- Parse a complete JSON string literal body (everything after the opening
quote): one fuel unit is spent per decoded character and decoding never
produces more characters than it consumes, so `length + 1` fuel always
suffices. -/
def parseStringTotal (cs : List Char) : Option (List Char × List Char) :=
  parseStringBody (cs.length + 1) cs

/-- Split a maximal run of decimal digits off the front of the input. -/
def takeDigits : List Char → List Char × List Char
  | [] => ([], [])
  | c :: cs =>
      if 48 ≤ c.toNat ∧ c.toNat ≤ 57 then
        let p := takeDigits cs
        (c :: p.1, p.2)
      else ([], c :: cs)

/-- Optional fraction part of a JSON number. -/
def parseFrac : List Char → Option (List Char × List Char)
  | [] => some ([], [])
  | c :: r =>
      if c = '.' then
        match takeDigits r with
        | ([], _) => none
        | (ds, rest) => some ('.' :: ds, rest)
      else some ([], c :: r)

/-- Optional sign of an exponent part. -/
def expSign : List Char → List Char × List Char
  | [] => ([], [])
  | c :: r => if c = '+' then (['+'], r) else if c = '-' then (['-'], r) else ([], c :: r)

/-- Optional exponent part of a JSON number. -/
def parseExp : List Char → Option (List Char × List Char)
  | [] => some ([], [])
  | c :: r =>
      if c = 'e' ∨ c = 'E' then
        let p := expSign r
        match takeDigits p.2 with
        | ([], _) => none
        | (ds, rest) => some (c :: (p.1 ++ ds), rest)
      else some ([], c :: r)

/-- Optional leading minus sign of a JSON number. -/
def numSign : List Char → List Char × List Char
  | [] => ([], [])
  | c :: r => if c = '-' then (['-'], r) else ([], c :: r)

/-- Parse a JSON numeric literal, keeping its lexeme.  Leading zeros are
rejected as in the JSON grammar. -/
def parseNumber (cs : List Char) : Option (Json × List Char) :=
  let p := numSign cs
  match takeDigits p.2 with
  | ([], _) => none
  | (ds, rest0) =>
      if 1 < ds.length ∧ ds.head? = some '0' then none
      else
        match parseFrac rest0 with
        | none => none
        | some (fs, rest1) =>
            match parseExp rest1 with
            | none => none
            | some (es, rest2) =>
                some (.num (String.mk (p.1 ++ ds ++ fs ++ es)), rest2)

mutual

/-- Parse one JSON value.  The fuel bounds the nesting recursion; each
nesting level consumes at least one input character, so `length + 1` fuel
always suffices (serde_json instead imposes a fixed recursion limit). -/
def parseValue : Nat → List Char → Option (Json × List Char)
  | 0, _ => none
  | fuel + 1, cs =>
      match skipWs cs with
      | [] => none
      | c :: rest =>
          if c = '"' then
            match parseStringTotal rest with
            | some (s, r) => some (.str (String.mk s), r)
            | none => none
          else if c = '{' then
            match skipWs rest with
            | [] => none
            | c2 :: rest2 =>
                if c2 = '}' then some (.obj [], rest2)
                else
                  match parseMembers fuel (c2 :: rest2) with
                  | some (ms, r) => some (.obj ms, r)
                  | none => none
          else if c = '[' then
            match skipWs rest with
            | [] => none
            | c2 :: rest2 =>
                if c2 = ']' then some (.arr [], rest2)
                else
                  match parseElements fuel (c2 :: rest2) with
                  | some (vs, r) => some (.arr vs, r)
                  | none => none
          else if c = 'n' then
            match rest with
            | c1 :: c2 :: c3 :: r =>
                if c1 = 'u' ∧ c2 = 'l' ∧ c3 = 'l' then some (.null, r) else none
            | _ => none
          else if c = 't' then
            match rest with
            | c1 :: c2 :: c3 :: r =>
                if c1 = 'r' ∧ c2 = 'u' ∧ c3 = 'e' then some (.bool true, r) else none
            | _ => none
          else if c = 'f' then
            match rest with
            | c1 :: c2 :: c3 :: c4 :: r =>
                if c1 = 'a' ∧ c2 = 'l' ∧ c3 = 's' ∧ c4 = 'e' then some (.bool false, r)
                else none
            | _ => none
          else parseNumber (c :: rest)

/-- Parse the members of a non-empty JSON object, up to and including the
closing brace. -/
def parseMembers : Nat → List Char → Option (List (String × Json) × List Char)
  | 0, _ => none
  | fuel + 1, cs =>
      match skipWs cs with
      | [] => none
      | c :: rest =>
          if c = '"' then
            match parseStringTotal rest with
            | some (k, r1) =>
                match skipWs r1 with
                | [] => none
                | c2 :: r2 =>
                    if c2 = ':' then
                      match parseValue fuel r2 with
                      | some (v, r3) =>
                          match skipWs r3 with
                          | [] => none
                          | c3 :: r4 =>
                              if c3 = ',' then
                                match parseMembers fuel r4 with
                                | some (ms, r5) => some ((String.mk k, v) :: ms, r5)
                                | none => none
                              else if c3 = '}' then some ([(String.mk k, v)], r4)
                              else none
                      | none => none
                    else none
            | none => none
          else none

/-- Parse the elements of a non-empty JSON array, up to and including the
closing bracket. -/
def parseElements : Nat → List Char → Option (List Json × List Char)
  | 0, _ => none
  | fuel + 1, cs =>
      match parseValue fuel cs with
      | some (v, r1) =>
          match skipWs r1 with
          | [] => none
          | c2 :: r2 =>
              if c2 = ',' then
                match parseElements fuel r2 with
                | some (vs, r3) => some (v :: vs, r3)
                | none => none
              else if c2 = ']' then some ([v], r2)
              else none
      | none => none

end

/-- Parse a complete JSON document: one value with only whitespace around
it, as `serde_json::from_str` requires. -/
def parseJson (s : String) : Option Json :=
  match parseValue ((skipWs s.data).length + 1) (skipWs s.data) with
  | some (v, rest) =>
      match skipWs rest with
      | [] => some v
      | _ => none
  | none => none

/-- The `Message` struct of `src/lib.rs` (lines 51–57): a required
`message: String` and a `timestamp: Option<String>` carrying
`#[serde(default)]`. -/
structure Message where
  message : String
  timestamp : Option String
deriving DecidableEq, Repr

/-- Field loop of serde's derived `Deserialize` for `Message` over the
members of a JSON object: `message` must be a string and appear exactly once
(a duplicate is an error); `timestamp` may be a string or `null` and may
appear at most once, defaulting to `None` when missing; unknown fields are
ignored. -/
def decodeMessageFields :
    List (String × Json) → Option String → Bool → Option String → Option Message
  | [], msg, _, ts =>
      match msg with
      | some m => some { message := m, timestamp := ts }
      | none => none
  | (k, v) :: rest, msg, tsSeen, ts =>
      if k = "message" then
        match msg with
        | some _ => none
        | none =>
            match v with
            | .str s => decodeMessageFields rest (some s) tsSeen ts
            | _ => none
      else if k = "timestamp" then
        if tsSeen then none
        else
          match v with
          | .str s => decodeMessageFields rest msg true (some s)
          | .null => decodeMessageFields rest msg true none
          | _ => none
      else decodeMessageFields rest msg tsSeen ts

/-- serde's derived `Deserialize` for `Message`: the document must be a JSON
object. -/
def decodeMessage : Json → Option Message
  | .obj fields => decodeMessageFields fields none false none
  | _ => none

/-- `serde_json::from_str::<Message>(json)`: parse the document, then decode
the struct. -/
def parseMessage (s : String) : Option Message :=
  match parseJson s with
  | some j => decodeMessage j
  | none => none

/-- serde_json serialization of the `timestamp` field: `None` becomes
`null`, `Some t` becomes a string literal. -/
def serializeTimestamp : Option String → List Char
  | none => ['n', 'u', 'l', 'l']
  | some t => stringLit t

/-- Character form of `serde_json::to_string(&m)` for a `Message`: the two
fields in declaration order, compact. -/
def serializeMessageChars (m : Message) : List Char :=
  '{' :: (stringLit "message" ++ ':' :: stringLit m.message
    ++ ',' :: stringLit "timestamp" ++ ':' :: serializeTimestamp m.timestamp
    ++ ['}'])

/-- `serde_json::to_string(&m)` for a `Message`. -/
def serializeMessage (m : Message) : String :=
  String.mk (serializeMessageChars m)

/-- Python exception classes raised by `emit_str` / `emit_async`:
`PyValueError` (the invalid-payload class) and `PyRuntimeError` (the
channel-closed class). -/
inductive PyErr where
  | valueError (msg : String)
  | runtimeError (msg : String)
deriving DecidableEq, Repr

/-- State of the `MESSAGE_CHANNEL` static and its channel (`src/lib.rs`
lines 59–61, 111–115): whether a sender has been stored, whether the
receiver half is still alive (an unbounded tokio send fails exactly when
the receiver was dropped), and the queued messages in FIFO order. -/
structure ChannelState where
  senderRegistered : Bool
  receiverAlive : Bool
  queue : List Message
deriving DecidableEq, Repr

/-- `emit_str` (`src/lib.rs` lines 191–205): parse the JSON into a
`Message` (raising `PyValueError` on failure), then send it on the stored
sender (raising `PyRuntimeError` when no sender is stored or when the send
fails); returns the updated channel state alongside the result. -/
def emit_str (st : ChannelState) (json : String) : Except PyErr Unit × ChannelState :=
  match parseMessage json with
  | none => (.error (.valueError "Invalid JSON"), st)
  | some message =>
      if st.senderRegistered then
        if st.receiverAlive then
          (.ok (), { st with queue := st.queue ++ [message] })
        else (.error (.runtimeError "Failed to send message"), st)
      else (.error (.runtimeError "Channel not initialized"), st)

/-- `emit_async` (`src/lib.rs` lines 208–225): parse the JSON into a
`Message` (raising `PyValueError` on failure) before building the future;
when no sender is stored raise `PyRuntimeError` immediately, otherwise the
awaited future performs the send and yields its outcome.  The value is the
awaited result together with the updated channel state. -/
def emit_async (st : ChannelState) (json : String) : Except PyErr Unit × ChannelState :=
  match parseMessage json with
  | none => (.error (.valueError "Invalid JSON"), st)
  | some message =>
      if st.senderRegistered then
        if st.receiverAlive then
          (.ok (), { st with queue := st.queue ++ [message] })
        else (.error (.runtimeError "Failed to send message"), st)
      else (.error (.runtimeError "Channel not initialized"), st)

/-- The receiver half of a channel held by the registry. -/
structure ReceiverEnd where
  chanId : Nat
deriving DecidableEq, Repr

/-- Modelled from the spec: the process-wide Channel Registry of spec §3 and
§4.3.  The repository's `src/` contains no live implementation of
`take_receiver` (only a commented-out revision of `start_event_consumer` in
`src/lib.rs`), so the registry is modelled from the spec's words: a single
shared holder of receiver halves guarded by mutual exclusion, keyed, from
which a receiver can be extracted at most once. -/
structure Registry where
  slots : String → Option ReceiverEnd

/-- Modelled from the spec: `take_receiver(key)` (spec §4.3) — under the
registry's lock, move the receiver half for `key` out of the registry;
return it if it was still present, and leave the slot consumed so that all
later calls observe absence. -/
def take_receiver (r : Registry) (key : String) : Option ReceiverEnd × Registry :=
  match r.slots key with
  | some rc => (some rc, ⟨fun k => if k = key then none else r.slots k⟩)
  | none => (none, r)

/-- The linearized outcome sequence of `n` successive `take_receiver` calls
for the same key (the registry's mutual exclusion serializes concurrent
callers, so any interleaving observes such a sequence). -/
def takeTrace : Registry → String → Nat → List (Option ReceiverEnd)
  | _, _, 0 => []
  | r, key, n + 1 =>
      let p := take_receiver r key
      p.1 :: takeTrace p.2 key n

/-- The JSON value serde_json produces for the `timestamp` field: `null`
for `None`, a string for `Some`. -/
def tsJson : Option String → Json
  | none => .null
  | some t => .str t

/-- Sample concrete request used by witnesses. -/
def reqA : Request :=
  { method := "POST", uri := "/api/call", version := "HTTP/1.1", headers := [("Content-Type", .text "text/plain")], body := "ping" }

/-- The `HashMap` lookup on the association-list model: value of the first
(and, with unique keys, only) entry whose key matches. -/
def lookupHM (l : List (String × String)) (k : String) : Option String :=
  (l.find? (fun p => p.1 = k)).map Prod.snd

/-- Value of the last occurrence of key `k` in a pair list (the value the
spec requires for duplicate headers). -/
def lastValue (l : List (String × String)) (k : String) : Option String :=
  (l.reverse.find? (fun p => p.1 = k)).map Prod.snd

/-- Claim C1: per dispatch call, if the callback returns a present non-empty
string `s` then exactly one `Eval s` instruction is enqueued to the native
loop; if it returns `None` nothing is enqueued; and in every case at most one
instruction is enqueued. -/
theorem claim_C1_dispatch_eval (handler : String → PyResult) (req : Request) :
    (∀ s : String, s ≠ "" → handler (requestJson req) = .ok (.str s) →
      (handle_ipc_req handler req).enqueued = [RuntimeMessage.Eval s])
    ∧ (handler (requestJson req) = .ok .pynone →
      (handle_ipc_req handler req).enqueued = [])
    ∧ (handle_ipc_req handler req).enqueued.length ≤ 1 := by
  refine ⟨fun s _ h => ?_, fun h => ?_, ?_⟩
  · simp [handle_ipc_req, h, extractOptionString]
  · simp [handle_ipc_req, h, extractOptionString]
  · cases h1 : handler (requestJson req) with
    | ok res => cases res <;> simp [handle_ipc_req, h1, extractOptionString]
    | err e => simp [handle_ipc_req, h1]

/-- Witness for claim C1 at a concrete handler and request. -/
theorem claim_C1_dispatch_eval_witness :
    (handle_ipc_req (fun _ => .ok (.str "document.title") : String → PyResult) reqA).enqueued
      = [RuntimeMessage.Eval "document.title"] :=
  (claim_C1_dispatch_eval (fun _ => .ok (.str "document.title")) reqA).1
    "document.title" (by decide) rfl

/-- Claim C2: starting from the initial `Running` state, a `CloseRequested`
event delivered while still running sends the loop to the terminal `Exiting`
state, and the scripts applied to the webview are exactly those of the
user events delivered before the close — nothing after it is applied. -/
theorem claim_C2_close_terminal (pre post : List LoopEvent)
    (h : LoopEvent.closeRequested ∉ pre) :
    runLoop .Running (pre ++ LoopEvent.closeRequested :: post)
      = (.Exiting, evalsOf pre) := by
  induction pre with
  | nil => simp [runLoop, eventHandler, evalsOf]
  | cons e es ih =>
      have he : e ≠ LoopEvent.closeRequested := fun hx => h (hx ▸ List.mem_cons_self e es)
      have hes : LoopEvent.closeRequested ∉ es := fun hx => h (List.mem_cons_of_mem e hx)
      cases e with
      | closeRequested => exact absurd rfl he
      | userEvent m =>
          cases m with
          | Eval s => simp [runLoop, eventHandler, evalsOf, ih hes]
      | otherEvent => simp [runLoop, eventHandler, evalsOf, ih hes]

/-- Witness for claim C2 at a concrete trace. -/
theorem claim_C2_close_terminal_witness :
    runLoop .Running
        ([LoopEvent.userEvent (.Eval "a"), LoopEvent.otherEvent]
          ++ LoopEvent.closeRequested
            :: [LoopEvent.userEvent (.Eval "b")])
      = (.Exiting, ["a"]) :=
  claim_C2_close_terminal
    [LoopEvent.userEvent (.Eval "a"), LoopEvent.otherEvent]
    [LoopEvent.userEvent (.Eval "b")] (by decide)

/-- Claim C3: when the callback raises, dispatch logs exactly that error,
enqueues no instruction, and returns normally (the dispatch function is
total, so no exception propagates). -/
theorem claim_C3_callback_error_swallowed (handler : String → PyResult)
    (req : Request) (e : String) (h : handler (requestJson req) = .err e) :
    handle_ipc_req handler req = { enqueued := [], errorLog := [e] } := by
  simp [handle_ipc_req, h]

/-- Witness for claim C3 at a concrete raising handler. -/
theorem claim_C3_callback_error_swallowed_witness :
    handle_ipc_req (fun _ => .err "boom" : String → PyResult)
        { method := "GET", uri := "/", version := "HTTP/1.1", headers := [], body := "" }
      = { enqueued := [], errorLog := ["boom"] } :=
  claim_C3_callback_error_swallowed (fun _ => .err "boom")
    { method := "GET", uri := "/", version := "HTTP/1.1", headers := [], body := "" }
    "boom" rfl

/-- Claim C10: when the callback returns successfully with a value that is
neither a string nor `None` (so `extract::<Option<String>>` fails), dispatch
enqueues nothing and logs nothing — the value is silently ignored. -/
theorem claim_C10_nonstring_ignored (handler : String → PyResult)
    (req : Request) (rep : String)
    (h : handler (requestJson req) = .ok (.otherVal rep)) :
    handle_ipc_req handler req = { enqueued := [], errorLog := [] } := by
  simp [handle_ipc_req, h, extractOptionString]

/-- Witness for claim C10 at a concrete handler returning a non-string. -/
theorem claim_C10_nonstring_ignored_witness :
    handle_ipc_req (fun _ => .ok (.otherVal "42") : String → PyResult)
        { method := "GET", uri := "/", version := "HTTP/1.1", headers := [], body := "" }
      = { enqueued := [], errorLog := [] } :=
  claim_C10_nonstring_ignored (fun _ => .ok (.otherVal "42"))
    { method := "GET", uri := "/", version := "HTTP/1.1", headers := [], body := "" }
    "42" rfl

theorem skipWs_not_ws (c : Char) (cs : List Char) (h : isJsonWs c = false) :
    skipWs (c :: cs) = c :: cs := by simp [skipWs, h]

theorem escapeChar_length_pos (c : Char) : 1 ≤ (escapeChar c).length := by
  unfold escapeChar
  repeat' split
  all_goals simp

theorem escapeList_length_ge (s : List Char) : s.length ≤ (escapeList s).length := by
  induction s with
  | nil => simp [escapeList]
  | cons c cs ih =>
      have h := escapeChar_length_pos c
      simp only [escapeList, List.length_append, List.length_cons]
      omega

theorem hexVal_toHexDigit (n : Nat) (h : n < 16) : hexVal (toHexDigit n) = some n := by
  have hall : ∀ m : Nat, m < 16 → hexVal (toHexDigit m) = some m := by decide
  exact hall n h

theorem parseStringBody_escape (s : List Char) :
    ∀ (fuel : Nat) (rest : List Char), s.length + 1 ≤ fuel →
      parseStringBody fuel (escapeList s ++ '"' :: rest) = some (s, rest) := by
  induction s with
  | nil =>
      intro fuel rest h
      obtain ⟨f, rfl⟩ : ∃ f, fuel = f + 1 := ⟨fuel - 1, by omega⟩
      simp [escapeList, parseStringBody]
  | cons c s' ih =>
      intro fuel rest h
      obtain ⟨f, rfl⟩ : ∃ f, fuel = f + 1 := ⟨fuel - 1, by omega⟩
      have hf : s'.length + 1 ≤ f := by
        simp only [List.length_cons] at h; omega
      rw [show escapeList (c :: s') ++ '"' :: rest
            = escapeChar c ++ (escapeList s' ++ '"' :: rest) by
          simp [escapeList]]
      by_cases h1 : c = '"'
      · subst h1; simp [escapeChar, parseStringBody, readEscape, ih f rest hf]
      · by_cases h2 : c = '\\'
        · subst h2; simp [escapeChar, parseStringBody, readEscape, ih f rest hf]
        · by_cases h3 : c = Char.ofNat 8
          · subst h3; simp [escapeChar, parseStringBody, readEscape, ih f rest hf]
          · by_cases h4 : c = Char.ofNat 9
            · subst h4; simp [escapeChar, parseStringBody, readEscape, ih f rest hf]
            · by_cases h5 : c = Char.ofNat 10
              · subst h5; simp [escapeChar, parseStringBody, readEscape, ih f rest hf]
              · by_cases h6 : c = Char.ofNat 12
                · subst h6; simp [escapeChar, parseStringBody, readEscape, ih f rest hf]
                · by_cases h7 : c = Char.ofNat 13
                  · subst h7; simp [escapeChar, parseStringBody, readEscape, ih f rest hf]
                  · by_cases hlt : c.toNat < 32
                    · have hd1 : c.toNat / 16 < 16 := by omega
                      have hd2 : c.toNat % 16 < 16 := by omega
                      have he : escapeChar c
                          = ['\\', 'u', '0', '0', toHexDigit (c.toNat / 16),
                              toHexDigit (c.toNat % 16)] := by
                        simp [escapeChar, h1, h2, h3, h4, h5, h6, h7, hlt]
                      rw [he]
                      have hor : c.toNat < 55296 ∨ 57344 ≤ c.toNat := Or.inl (by omega)
                      have h0 : hexVal '0' = some 0 := by decide
                      have hhex : hex4 '0' '0' (toHexDigit (c.toNat / 16))
                          (toHexDigit (c.toNat % 16)) = some c.toNat := by
                        simp [hex4, h0, hexVal_toHexDigit _ hd1, hexVal_toHexDigit _ hd2]
                        omega
                      have hre : readEscape ('u' :: '0' :: '0' :: toHexDigit (c.toNat / 16)
                            :: toHexDigit (c.toNat % 16) :: (escapeList s' ++ '"' :: rest))
                          = some (c, escapeList s' ++ '"' :: rest) := by
                        simp [readEscape, hhex, hor, Char.ofNat_toNat]
                      simp [parseStringBody, hre, ih f rest hf]
                    · have he : escapeChar c = [c] := by
                        simp [escapeChar, h1, h2, h3, h4, h5, h6, h7, hlt]
                      rw [he]
                      simp [parseStringBody, h1, h2, hlt, ih f rest hf]

theorem parseStringTotal_escape (s rest : List Char) :
    parseStringTotal (escapeList s ++ '"' :: rest) = some (s, rest) := by
  apply parseStringBody_escape
  have := escapeList_length_ge s
  simp only [List.length_append, List.length_cons]
  omega

theorem string_mk_data (s : String) : String.mk s.data = s := rfl

theorem parseValue_stringLit (f : Nat) (s : String) (rest : List Char) :
    parseValue (f + 1) (stringLit s ++ rest) = some (.str s, rest) := by
  rw [show stringLit s ++ rest = '"' :: (escapeList s.data ++ '"' :: rest) by
    simp [stringLit]]
  simp [parseValue, skipWs, isJsonWs, parseStringTotal_escape, string_mk_data]

theorem parseValue_nullLit (f : Nat) (rest : List Char) :
    parseValue (f + 1) ('n' :: 'u' :: 'l' :: 'l' :: rest) = some (.null, rest) := by
  simp [parseValue, skipWs, isJsonWs]

theorem parseValue_serTs (f : Nat) (ts : Option String) (rest : List Char) :
    parseValue (f + 1) (serializeTimestamp ts ++ rest) = some (tsJson ts, rest) := by
  cases ts with
  | none =>
      rw [show serializeTimestamp none ++ rest = 'n' :: 'u' :: 'l' :: 'l' :: rest by
        simp [serializeTimestamp]]
      exact parseValue_nullLit f rest
  | some t =>
      rw [show serializeTimestamp (some t) = stringLit t from rfl]
      exact parseValue_stringLit f t rest

theorem parseMembers_msgFields (f : Nat) (msg : String) (ts : Option String)
    (rest : List Char) :
    parseMembers (f + 1 + 1 + 1)
        ('"' :: (escapeList ['m', 'e', 's', 's', 'a', 'g', 'e']
          ++ '"' :: (':' :: (stringLit msg
            ++ ',' :: ('"' :: (escapeList ['t', 'i', 'm', 'e', 's', 't', 'a', 'm', 'p']
              ++ '"' :: (':' :: (serializeTimestamp ts ++ '}' :: rest))))))))
      = some ([("message", .str msg), ("timestamp", tsJson ts)], rest) := by
  have hm : String.mk ['m', 'e', 's', 's', 'a', 'g', 'e'] = "message" := rfl
  have ht : String.mk ['t', 'i', 'm', 'e', 's', 't', 'a', 'm', 'p'] = "timestamp" := rfl
  simp [parseMembers, skipWs, isJsonWs, parseStringTotal_escape, parseValue_stringLit,
    hm, ht]
  simp [parseValue_serTs, skipWs, isJsonWs, ht]

theorem parseValue_serMsg (f : Nat) (m : Message) (rest : List Char) :
    parseValue (f + 1 + 1 + 1 + 1) (serializeMessageChars m ++ rest)
      = some (.obj [("message", .str m.message), ("timestamp", tsJson m.timestamp)],
          rest) := by
  rw [show serializeMessageChars m ++ rest
        = '{' :: ('"' :: (escapeList ['m', 'e', 's', 's', 'a', 'g', 'e']
          ++ '"' :: (':' :: (stringLit m.message
            ++ ',' :: ('"' :: (escapeList ['t', 'i', 'm', 'e', 's', 't', 'a', 'm', 'p']
              ++ '"' :: (':' :: (serializeTimestamp m.timestamp ++ '}' :: rest)))))))) by
      simp [serializeMessageChars, stringLit]]
  simp [parseValue, skipWs, isJsonWs, parseMembers_msgFields]

theorem parseValue_serMsg_nil (f : Nat) (m : Message) :
    parseValue (f + 1 + 1 + 1 + 1) (serializeMessageChars m)
      = some (.obj [("message", .str m.message), ("timestamp", tsJson m.timestamp)],
          []) := by
  have h := parseValue_serMsg f m []
  simpa using h

theorem string_data_mk (l : List Char) : (String.mk l).data = l := rfl

theorem serializeMessageChars_length (m : Message) :
    3 ≤ (serializeMessageChars m).length := by
  simp [serializeMessageChars, stringLit]
  omega

theorem parseJson_serializeMessage (m : Message) :
    parseJson (serializeMessage m)
      = some (.obj [("message", .str m.message), ("timestamp", tsJson m.timestamp)]) := by
  have hlen := serializeMessageChars_length m
  obtain ⟨k, hk⟩ : ∃ k, (serializeMessageChars m).length = k + 1 + 1 + 1 :=
    ⟨(serializeMessageChars m).length - 3, by omega⟩
  have hskip : skipWs (serializeMessageChars m) = serializeMessageChars m := by
    rw [show serializeMessageChars m
          = '{' :: (stringLit "message" ++ ':' :: stringLit m.message
            ++ ',' :: stringLit "timestamp" ++ ':' :: serializeTimestamp m.timestamp
            ++ ['}']) from rfl]
    exact skipWs_not_ws _ _ (by decide)
  unfold parseJson serializeMessage
  rw [string_data_mk, hskip, hk, parseValue_serMsg_nil k m]
  simp [skipWs]

theorem decodeMessage_msgFields (msg : String) (ts : Option String) :
    decodeMessage (.obj [("message", Json.str msg), ("timestamp", tsJson ts)])
      = some { message := msg, timestamp := ts } := by
  cases ts with
  | none =>
      simp [decodeMessage, decodeMessageFields, tsJson,
        show ("timestamp" : String) ≠ "message" by decide]
  | some t =>
      simp [decodeMessage, decodeMessageFields, tsJson,
        show ("timestamp" : String) ≠ "message" by decide]

theorem parseMessage_serializeMessage (m : Message) :
    parseMessage (serializeMessage m) = some m := by
  obtain ⟨msg, ts⟩ := m
  unfold parseMessage
  rw [parseJson_serializeMessage]
  exact decodeMessage_msgFields msg ts

/-- Claim C4: `emit_str` raises the invalid-payload class (`PyValueError`)
exactly when the payload fails to parse as a `Message`; when the payload
parses but no consumer side exists (no sender stored, or the receiver half
gone) it raises the channel-closed class (`PyRuntimeError`); otherwise it
enqueues the parsed message and succeeds. -/
theorem claim_C4_emit_classification (st : ChannelState) (json : String) :
    ((∃ e, (emit_str st json).1 = .error (.valueError e)) ↔ parseMessage json = none)
    ∧ (∀ m, parseMessage json = some m →
        (¬(st.senderRegistered = true ∧ st.receiverAlive = true) →
          ∃ e, (emit_str st json).1 = .error (.runtimeError e))
        ∧ (st.senderRegistered = true → st.receiverAlive = true →
          emit_str st json = (.ok (), { st with queue := st.queue ++ [m] }))) := by
  constructor
  · cases hp : parseMessage json with
    | none => simp [emit_str, hp]
    | some m =>
        simp only [emit_str, hp]
        constructor
        · rintro ⟨e, he⟩
          by_cases h1 : st.senderRegistered <;> by_cases h2 : st.receiverAlive <;>
            simp [h1, h2] at he
        · intro h
          exact absurd h (by simp)
  · intro m hp
    constructor
    · intro hno
      by_cases h1 : st.senderRegistered <;> by_cases h2 : st.receiverAlive <;>
        simp [emit_str, hp, h1, h2] at hno ⊢
    · intro h1 h2
      simp [emit_str, hp, h1, h2]

/-- Witness for claim C4: a well-formed payload on a live channel is
enqueued. -/
theorem claim_C4_emit_classification_witness :
    emit_str { senderRegistered := true, receiverAlive := true, queue := [] }
        (String.mk ('{' :: (stringLit "message" ++ ':' :: stringLit "hi" ++ ['}'])))
      = (.ok (), { senderRegistered := true, receiverAlive := true, queue := [{ message := "hi", timestamp := none }] }) :=
  ((claim_C4_emit_classification
        { senderRegistered := true, receiverAlive := true, queue := [] }
        (String.mk ('{' :: (stringLit "message" ++ ':' :: stringLit "hi" ++ ['}'])))).2
      { message := "hi", timestamp := none } (by decide)).2 rfl rfl

/-- Claim C5: `emit_async` has the same result semantics as `emit_str` on
every input and channel state: the same error classification and the same
enqueued message on success. -/
theorem claim_C5_emit_async_equiv (st : ChannelState) (json : String) :
    emit_async st json = emit_str st json := rfl

/-- Claim C7: `emit` on the payload `"not-json"` raises the invalid-payload
error and leaves the channel state unchanged — nothing is enqueued. -/
theorem claim_C7_not_json_unchanged (st : ChannelState) :
    emit_str st "not-json" = (.error (.valueError "Invalid JSON"), st) := by
  have hp : parseMessage "not-json" = none := by decide
  simp [emit_str, hp]

/-- Claim C9: `take_receiver` hands the receiver out at most once — from a
registry holding the receiver for `key`, the first call returns it and every
one of the `n` subsequent calls observes no receiver. -/
theorem claim_C9_take_receiver_once (r : Registry) (key : String)
    (rc : ReceiverEnd) (n : Nat) (h : r.slots key = some rc) :
    takeTrace r key (n + 1) = some rc :: List.replicate n none := by
  have hgone : ∀ (m : Nat) (r' : Registry), r'.slots key = none →
      takeTrace r' key m = List.replicate m none := by
    intro m
    induction m with
    | zero => intro r' _; rfl
    | succ k ih =>
        intro r' h'
        simp only [takeTrace, take_receiver, h']
        rw [List.replicate_succ, ih r' h']
  simp only [takeTrace, take_receiver, h]
  rw [hgone n _ (by simp)]

/-- Witness for claim C9 at a concrete registry: three successive calls. -/
theorem claim_C9_take_receiver_once_witness :
    takeTrace ⟨fun _ => some { chanId := 0 }⟩ "host-to-background" (2 + 1)
      = some { chanId := 0 } :: List.replicate 2 none :=
  claim_C9_take_receiver_once ⟨fun _ => some { chanId := 0 }⟩
    "host-to-background" { chanId := 0 } 2 rfl

/-- Claim C8: round-trip — for every `Message` with only the documented
fields, emitting its serde_json serialization over a live channel succeeds
and enqueues a message deep-equal to the original, so draining the consumer
end observes exactly that message (`parseMessage (serializeMessage m) =
some m`). -/
theorem claim_C8_roundtrip (m : Message) (st : ChannelState)
    (h1 : st.senderRegistered = true) (h2 : st.receiverAlive = true) :
    emit_str st (serializeMessage m) = (.ok (), { st with queue := st.queue ++ [m] }) := by
  simp [emit_str, parseMessage_serializeMessage, h1, h2]

/-- Witness for claim C8 at a concrete message and live channel. -/
theorem claim_C8_roundtrip_witness :
    emit_str { senderRegistered := true, receiverAlive := true, queue := [] }
        (serializeMessage { message := "hello", timestamp := some "2024-01-01" })
      = (.ok (), { senderRegistered := true, receiverAlive := true, queue := [{ message := "hello", timestamp := some "2024-01-01" }] }) :=
  claim_C8_roundtrip { message := "hello", timestamp := some "2024-01-01" }
    { senderRegistered := true, receiverAlive := true, queue := [] } rfl rfl

theorem map_fst_overwrite (m : List (String × String)) (k v : String) :
    (m.map (fun p => if p.1 = k then (k, v) else p)).map Prod.fst
      = m.map Prod.fst := by
  induction m with
  | nil => rfl
  | cons p m' ih => by_cases hp : p.1 = k <;> simp [hp, ih]

theorem find?_overwrite_self (m : List (String × String)) (k v : String)
    (ha : m.any (fun p => p.1 = k) = true) :
    (m.map (fun p => if p.1 = k then (k, v) else p)).find? (fun p => p.1 = k)
      = some (k, v) := by
  induction m with
  | nil => simp at ha
  | cons p m' ih =>
      by_cases hp : p.1 = k
      · simp only [List.map_cons, if_pos hp]
        rw [List.find?_cons_of_pos _ (by simp)]
      · have ha' : m'.any (fun p => p.1 = k) = true := by simpa [hp] using ha
        simp only [List.map_cons, if_neg hp]
        rw [List.find?_cons_of_neg _ (by simpa using hp), ih ha']

theorem find?_overwrite_other (m : List (String × String)) (k v k' : String)
    (hne : k' ≠ k) :
    (m.map (fun p => if p.1 = k then (k, v) else p)).find? (fun p => p.1 = k')
      = m.find? (fun p => p.1 = k') := by
  induction m with
  | nil => simp
  | cons p m' ih =>
      by_cases hp : p.1 = k
      · have h1 : ¬((k, v).1 = k') := by
          intro h
          exact hne ((show (k, v).1 = k from rfl) ▸ h).symm
        have h2 : ¬(p.1 = k') := by rw [hp]; exact fun h => hne h.symm
        simp only [List.map_cons, if_pos hp]
        rw [List.find?_cons_of_neg _ (by simpa using h1),
          List.find?_cons_of_neg _ (by simpa using h2), ih]
      · simp only [List.map_cons, if_neg hp]
        by_cases hq : p.1 = k'
        · rw [List.find?_cons_of_pos _ (by simpa using hq),
            List.find?_cons_of_pos _ (by simpa using hq)]
        · rw [List.find?_cons_of_neg _ (by simpa using hq),
            List.find?_cons_of_neg _ (by simpa using hq), ih]

theorem lookupHM_hashInsert (m : List (String × String)) (k v k' : String) :
    lookupHM (hashInsert m k v) k' = if k' = k then some v else lookupHM m k' := by
  unfold hashInsert lookupHM
  by_cases ha : m.any (fun p => p.1 = k)
  · by_cases hk : k' = k
    · subst hk
      rw [if_pos ha, find?_overwrite_self m k' v ha]
      simp
    · rw [if_pos ha, find?_overwrite_other m k v k' hk]
      simp [hk]
  · rw [if_neg ha, List.find?_append]
    by_cases hk : k' = k
    · subst hk
      have hnone : m.find? (fun p => p.1 = k') = none := by
        rw [List.find?_eq_none]
        intro x hx
        simp only [decide_eq_true_eq]
        intro hx1
        exact ha (List.any_eq_true.mpr ⟨x, hx, by simp [hx1]⟩)
      simp [hnone]
    · have hk2 : ¬(k = k') := fun h => hk h.symm
      have hsingle : List.find? (fun p => p.1 = k') [(k, v)] = none := by
        simp [List.find?_cons, hk2]
      simp [hsingle, hk]

theorem lastValue_cons (k0 v0 : String) (l : List (String × String)) (k : String) :
    lastValue ((k0, v0) :: l) k
      = (lastValue l k).or (if k0 = k then some v0 else none) := by
  unfold lastValue
  rw [List.reverse_cons, List.find?_append]
  by_cases hk : k0 = k <;>
    cases hfind : l.reverse.find? (fun p => p.1 = k) <;>
      simp [List.find?_cons, hfind, hk]

theorem lookupHM_hashCollect_aux (l : List (String × String)) :
    ∀ (acc : List (String × String)) (k : String),
      lookupHM (l.foldl (fun m p => hashInsert m p.1 p.2) acc) k
        = (lastValue l k).or (lookupHM acc k) := by
  induction l with
  | nil =>
      intro acc k
      simp [lastValue, List.foldl, lookupHM]
  | cons p l' ih =>
      intro acc k
      rw [List.foldl_cons, ih (hashInsert acc p.1 p.2) k, lookupHM_hashInsert,
        lastValue_cons]
      by_cases hk : k = p.1
      · rw [if_pos hk, if_pos hk.symm]
        cases hl : lastValue l' k <;> simp [Option.or]
      · rw [if_neg hk, if_neg (fun h => hk h.symm)]
        cases hl : lastValue l' k <;> simp [Option.or]

theorem lookupHM_hashCollect (l : List (String × String)) (k : String) :
    lookupHM (hashCollect l) k = lastValue l k := by
  unfold hashCollect
  rw [lookupHM_hashCollect_aux l [] k]
  cases h : lastValue l k <;> simp [h, lookupHM, Option.or]

theorem nodup_keys_hashInsert (m : List (String × String)) (k v : String)
    (h : (m.map Prod.fst).Nodup) : ((hashInsert m k v).map Prod.fst).Nodup := by
  unfold hashInsert
  by_cases ha : m.any (fun p => p.1 = k)
  · rw [if_pos ha, map_fst_overwrite]
    exact h
  · have hk : k ∉ m.map Prod.fst := by
      simp only [List.any_eq_true, decide_eq_true_eq] at ha
      intro hmem
      rcases List.mem_map.mp hmem with ⟨p, hp, hfst⟩
      exact ha ⟨p, hp, hfst⟩
    rw [if_neg ha]
    rw [List.map_append]
    rw [List.nodup_append]
    exact ⟨h, by simp, by
      intro a hal har
      simp only [List.map_cons, List.map_nil, List.mem_singleton] at har
      exact hk (har ▸ hal)⟩

theorem nodup_keys_hashCollect (l : List (String × String)) :
    ((hashCollect l).map Prod.fst).Nodup := by
  unfold hashCollect
  suffices h : ∀ acc : List (String × String), (acc.map Prod.fst).Nodup →
      ((l.foldl (fun m p => hashInsert m p.1 p.2) acc).map Prod.fst).Nodup from
    h [] (by simp)
  induction l with
  | nil => intro acc h; simpa using h
  | cons p l' ih =>
      intro acc h
      rw [List.foldl_cons]
      exact ih _ (nodup_keys_hashInsert _ _ _ h)

theorem mem_keys_iff_lookupHM (l : List (String × String)) (k : String) :
    k ∈ l.map Prod.fst ↔ (lookupHM l k).isSome := by
  unfold lookupHM
  constructor
  · intro h
    rcases List.mem_map.mp h with ⟨p, hp, hfst⟩
    have : (l.find? (fun p => p.1 = k)).isSome :=
      List.find?_isSome.mpr ⟨p, hp, by simp [hfst]⟩
    cases hfind : l.find? (fun p => p.1 = k) <;> simp [hfind] at this ⊢
  · intro h
    cases hfind : l.find? (fun p => p.1 = k) with
    | none => simp [hfind] at h
    | some p =>
        have hmem := List.mem_of_find?_eq_some hfind
        have hpk : p.1 = k := by
          have := List.find?_some hfind
          simpa using this
        exact hpk ▸ List.mem_map_of_mem Prod.fst hmem

theorem lastValue_isSome_iff (l : List (String × String)) (k : String) :
    (lastValue l k).isSome ↔ k ∈ l.map Prod.fst := by
  unfold lastValue
  rw [show l.map Prod.fst = (l.reverse.map Prod.fst).reverse by
    rw [← List.map_reverse, List.reverse_reverse]]
  rw [List.mem_reverse]
  constructor
  · intro h
    cases hfind : l.reverse.find? (fun p => p.1 = k) with
    | none => simp [hfind] at h
    | some p =>
        have hmem := List.mem_of_find?_eq_some hfind
        have hpk : p.1 = k := by
          have := List.find?_some hfind
          simpa using this
        exact hpk ▸ List.mem_map_of_mem Prod.fst hmem
  · intro h
    rcases List.mem_map.mp h with ⟨p, hp, hfst⟩
    have : (l.reverse.find? (fun p => p.1 = k)).isSome :=
      List.find?_isSome.mpr ⟨p, hp, by simp [hfst]⟩
    cases hfind : l.reverse.find? (fun p => p.1 = k) <;> simp [hfind] at this ⊢

/-- Claim C6: normalization produces a header mapping with exactly one entry
per distinct case-normalized header name (keys are unique, and a name is
present exactly when some header normalizes to it), each holding the value
of the last occurrence of that name, and a header value not representable as
text is mapped to the empty string instead of failing. -/
theorem claim_C6_normalize_headers (req : Request) :
    (((SerdeRequest.fromRequest req).headers.map Prod.fst).Nodup)
    ∧ (∀ k, k ∈ (SerdeRequest.fromRequest req).headers.map Prod.fst
        ↔ k ∈ (req.headers.map (fun p => (p.1.toLower, p.2.toStrOr))).map Prod.fst)
    ∧ (∀ k, lookupHM (SerdeRequest.fromRequest req).headers k
        = lastValue (req.headers.map (fun p => (p.1.toLower, p.2.toStrOr))) k)
    ∧ HeaderValue.toStrOr .binary = "" := by
  refine ⟨nodup_keys_hashCollect _, fun k => ?_, fun k => ?_, rfl⟩
  · rw [show (SerdeRequest.fromRequest req).headers
        = hashCollect (req.headers.map (fun p => (p.1.toLower, p.2.toStrOr))) from rfl]
    rw [mem_keys_iff_lookupHM, lookupHM_hashCollect, lastValue_isSome_iff]
  · rw [show (SerdeRequest.fromRequest req).headers
        = hashCollect (req.headers.map (fun p => (p.1.toLower, p.2.toStrOr))) from rfl]
    exact lookupHM_hashCollect _ k

end GuiV1
